import Mathlib

/-!
Shallow embedding of the world-state core of the `rustcraft` voxel server
(`src/server/game/world/…`), covering the chunk store, the action log,
branch validation and merge, chunk generation, the ambient-occlusion
computation, and the outbound event loop.  Machine integers (`i32`, `i64`,
`u8`, `u16`) are modelled as `Int` / `Nat` / `Fin`: none of the embedded
code relies on wrap-around, and the `u16` counter updates mirror the
source's `-=`/`+=` order.  Panics (`assert!`, `unreachable!`) are modelled
as `Option.none` results.
-/

set_option maxRecDepth 4000

namespace Rustcraft

/-- A triple of coordinates, standing in for `nalgebra`'s `Point3`/`Vector3`. -/
structure V3 (α : Type) where
  x : α
  y : α
  z : α
  deriving DecidableEq, Repr

/-- Componentwise addition, as on `nalgebra` points/vectors. -/
def V3.add (a b : V3 Int) : V3 Int := ⟨a.x + b.x, a.y + b.y, a.z + b.z⟩

/-- Componentwise subtraction. -/
def V3.sub (a b : V3 Int) : V3 Int := ⟨a.x - b.x, a.y - b.y, a.z - b.z⟩

/-- Source `Vector3::y()`, the up vector. -/
def V3.up : V3 Int := ⟨0, 1, 0⟩

/-- World-space block coordinates (`Point3<i64>` in the source). -/
abbrev WPos := V3 Int

/-- Chunk coordinates (`Point3<i32>` in the source). -/
abbrev ChunkPos := V3 Int

/-- Chunk-local block coordinates (`Point3<u8>`, each component `< 16`). -/
abbrev LPos := V3 (Fin 16)

/-- The block enum of `server/game/world/block/mod.rs`. -/
inductive Block where
  | Air
  | Sand
  | Glowstone
  | GlassMagenta
  | GlassCyan
  deriving DecidableEq, Repr

/-- Source `BlockAction` from `server/game/world/action.rs`. -/
inductive BlockAction where
  | Place (block : Block)
  | Destroy
  deriving DecidableEq, Repr

/-- Modelled from the spec: `block/data.rs` (the static `BLOCK_DATA` table)
is not part of the sources at hand.  The spec describes it as a per-block
table of "static properties (opacity, light emission, hitbox,
valid-placement rules)"; the claims need the valid-placement rule (the
optional required supporting surface) and the glow flag, so the table is
modelled as those two fields and the development is parametric in it. -/
structure BlockTable where
  valid_surface : Block → Option Block
  is_glowing : Block → Bool

variable (tbl : BlockTable)

/-- Source `Block::place`: succeeds exactly when the current block is air and the
placed block is not air; on failure the block is unchanged. -/
def Block.place (b : Block) (block : Block) : Block × Bool :=
  if b = .Air ∧ block ≠ .Air then (block, true) else (b, false)

/-- Source `Block::destroy`: succeeds exactly when the current block is not air. -/
def Block.destroy (b : Block) : Block × Bool :=
  if b ≠ .Air then (.Air, true) else (b, false)

/-- Source `Block::apply` from `block/mod.rs`: dispatch on the action. -/
def Block.apply (b : Block) (a : BlockAction) : Block × Bool :=
  match a with
  | .Place block => b.place block
  | .Destroy => b.destroy

/-- Modelled from the spec: `Block::apply_unchecked` is called from
`Chunk::apply_unchecked` and from action replay but its body is not among
the sources at hand.  Per the spec, replay applies the logged action
unconditionally ("replays all logged actions for that chunk"): a `Place`
yields the placed block, a `Destroy` yields air. -/
def Block.applyUnchecked (_b : Block) (a : BlockAction) : Block :=
  match a with
  | .Place block => block
  | .Destroy => .Air

/-- Modelled from the spec: `Block::is_action_valid` is called from
`Branch::merge` to keep "only those [actions] that are meaningful against
an all-air chunk"; its body is not among the sources at hand.  An action
is meaningful on a block exactly when applying it would change the block
(the success condition of `Block::apply`): on air, a `Place` of a non-air
block; `Destroy` only on non-air blocks. -/
def Block.isActionValid (b : Block) (a : BlockAction) : Bool :=
  match a with
  | .Place block => b = .Air ∧ block ≠ .Air
  | .Destroy => b ≠ .Air

/-- The canonical enumeration of a chunk's local coordinates
(`Chunk::points` in `chunk/mod.rs`): x-major, then y, then z. -/
def Chunk.pointsList : List LPos :=
  (List.finRange 16).flatMap fun x =>
    (List.finRange 16).flatMap fun y =>
      (List.finRange 16).map fun z => ⟨x, y, z⟩

/-- Source `Chunk` from `chunk/mod.rs`: a dense 16³ block grid (modelled as a
total function on local coordinates) with running non-air and glowing
counters (`u16` in the source, `Nat` here; the saturating behaviour of
`Nat` subtraction matches the source only while the counters are accurate,
which the development proves where it matters). -/
structure Chunk where
  blocks : LPos → Block
  non_air_count : Nat
  glowing_count : Nat

/-- Source `Chunk::from_fn`: builds the grid from `f` while counting non-air and
glowing blocks over the canonical point enumeration. -/
def Chunk.fromFn (f : LPos → Block) : Chunk where
  blocks := f
  non_air_count := (Chunk.pointsList.map f).countP (fun b => b ≠ .Air)
  glowing_count := (Chunk.pointsList.map f).countP (fun b => tbl.is_glowing b)

/-- Source `Chunk::default()`: the all-air chunk with zero counters. -/
def Chunk.empty : Chunk := ⟨fun _ => .Air, 0, 0⟩

/-- Source `Chunk::is_empty`: the non-air counter is zero. -/
def Chunk.isEmpty (c : Chunk) : Bool := c.non_air_count = 0

/-- Source `Chunk::adjust_counts`: decrement for the previous block, increment
for the current one, in the source's order. -/
def Chunk.adjustCounts (c : Chunk) (prev curr : Block) : Chunk :=
  { c with
    non_air_count :=
      c.non_air_count - (if prev ≠ .Air then 1 else 0)
        + (if curr ≠ .Air then 1 else 0)
    glowing_count :=
      c.glowing_count - (if tbl.is_glowing prev then 1 else 0)
        + (if tbl.is_glowing curr then 1 else 0) }

/-- Pointwise grid update (the `&mut self.blocks[coords]` write). -/
def Chunk.setBlock (c : Chunk) (p : LPos) (b : Block) : Chunk :=
  { c with blocks := fun q => if q = p then b else c.blocks q }

/-- Source `Chunk::apply`: checked application of one action at one voxel;
returns the updated chunk and whether a mutation happened. -/
def Chunk.apply (c : Chunk) (p : LPos) (a : BlockAction) : Chunk × Bool :=
  let prev := c.blocks p
  let (curr, ok) := prev.apply a
  if ok then ((c.setBlock p curr).adjustCounts tbl prev curr, true)
  else (c, false)

/-- Source `Chunk::apply_unchecked`: unconditional application of one action. -/
def Chunk.applyUnchecked (c : Chunk) (p : LPos) (a : BlockAction) : Chunk :=
  let prev := c.blocks p
  let curr := prev.applyUnchecked a
  (c.setBlock p curr).adjustCounts tbl prev curr

/-- Modelled from the spec: `shared/utils.rs` is not among the sources at
hand.  `utils::chunk_coords` maps a world coordinate to the coordinate of
its owning 16³ chunk: Euclidean division by the chunk dimension (the spec's
"sparse map from integer chunk coordinates" over fixed-size 16×16×16
chunks). -/
def chunkCoords (p : WPos) : ChunkPos := ⟨p.x.ediv 16, p.y.ediv 16, p.z.ediv 16⟩

/-- Modelled from the spec: `utils::block_coords`, the chunk-local
remainder of a world coordinate (Euclidean remainder by 16). -/
def blockCoords (p : WPos) : LPos :=
  ⟨⟨(p.x % 16).toNat, by omega⟩, ⟨(p.y % 16).toNat, by omega⟩,
    ⟨(p.z % 16).toNat, by omega⟩⟩

/-- Modelled from the spec: `utils::coords((chunk, block))`, the world
coordinate of a chunk-local position. -/
def worldCoords (cc : ChunkPos) (bc : LPos) : WPos :=
  ⟨cc.x * 16 + bc.x.val, cc.y * 16 + bc.y.val, cc.z * 16 + bc.z.val⟩

/-- Source `ChunkStore` from `world/mod.rs`: a sparse map from chunk coordinates
to chunks, modelled by its lookup function. -/
def ChunkStore := ChunkPos → Option Chunk

/-- Source `ChunkStore::default()`: the empty store. -/
def ChunkStore.empty : ChunkStore := fun _ => none

/-- Source `ChunkStore::get`. -/
def ChunkStore.get (s : ChunkStore) (c : ChunkPos) : Option Chunk := s c

/-- Source `ChunkStore::contains`. -/
def ChunkStore.contains (s : ChunkStore) (c : ChunkPos) : Bool := (s c).isSome

/-- Source `ChunkStore::block`: the block at a world coordinate, air when the
owning chunk is absent. -/
def ChunkStore.block (s : ChunkStore) (p : WPos) : Block :=
  match s (chunkCoords p) with
  | some chunk => chunk.blocks (blockCoords p)
  | none => .Air

/-- Unconditional map update (the underlying `FxHashMap::insert`). -/
def ChunkStore.set (s : ChunkStore) (c : ChunkPos) (chunk : Chunk) : ChunkStore :=
  fun q => if q = c then some chunk else s q

/-- Removal of a coordinate (the `Entry::remove` of `Branch::merge`). -/
def ChunkStore.remove (s : ChunkStore) (c : ChunkPos) : ChunkStore :=
  fun q => if q = c then none else s q

/-- Source `ChunkStore::insert`: `assert!`s that the coordinate was previously
absent; the panic on an occupied coordinate is modelled as `none`. -/
def ChunkStore.insert (s : ChunkStore) (c : ChunkPos) (chunk : Chunk) :
    Option ChunkStore :=
  if (s c).isSome then none else some (s.set c chunk)

/-- Source `ActionStore` from `action.rs`: chunk coordinates to a map from local
coordinates to the last action at that voxel, modelled by its lookup
function. -/
def ActionStore := ChunkPos → LPos → Option BlockAction

/-- Source `ActionStore::default()`. -/
def ActionStore.empty : ActionStore := fun _ _ => none

/-- Source `ActionStore::insert`: last-write-wins at the voxel's chunk-local slot. -/
def ActionStore.insert (s : ActionStore) (p : WPos) (a : BlockAction) : ActionStore :=
  fun cc bc =>
    if cc = chunkCoords p ∧ bc = blockCoords p then some a else s cc bc

/-- Source `ActionStore::actions`: the logged (local coordinate, action) pairs of
one chunk.  The source iterates an `FxHashMap` in unspecified order; since
the keys are distinct voxels, the development fixes the canonical
point-enumeration order. -/
def ActionStore.actions (s : ActionStore) (cc : ChunkPos) : List (LPos × BlockAction) :=
  Chunk.pointsList.filterMap fun p => (s cc p).map ((p, ·))

/-- The `World` state the claims touch: the chunk store, the action log
and the pluggable terrain generator (`chunk/generator.rs` is not among the
sources at hand; per the spec it is an external pure function
`generate(chunk_coords) -> Chunk`, modelled as the chunk's block grid).
The lighting and height-map fields of the source `World` are not modelled;
where the lighting engine's output feeds back into the embedded code it is
passed in as an explicit oracle argument. -/
structure World where
  chunks : ChunkStore
  actions : ActionStore
  generator : ChunkPos → LPos → Block

/-- Source `World::Y_RANGE = -4..20`, the configured vertical chunk bound. -/
def yRange (y : Int) : Bool := -4 ≤ y ∧ y < 20

/-- The replay loop of `World::generate`: the externally generated chunk
with every logged action for its coordinates applied by
`Chunk::apply_unchecked`. -/
def World.replayed (w : World) (coords : ChunkPos) : Chunk :=
  (w.actions.actions coords).foldl
    (fun ch pa => ch.applyUnchecked tbl pa.1 pa.2)
    (Chunk.fromFn tbl (w.generator coords))

/-- Source `World::generate` (`world/mod.rs:178`): `None` when the chunk is
already present; otherwise the externally generated chunk with every
logged action replayed (`Chunk::apply_unchecked`), and `None` when the
result is empty.  Pure: takes `&self`. -/
def World.generate (w : World) (coords : ChunkPos) : Option Chunk :=
  if (w.chunks coords).isSome then none
  else if (w.replayed tbl coords).isEmpty then none
  else some (w.replayed tbl coords)

/-- One sequential insertion step of `World::par_insert_many`. -/
def insertStep (acc : World × List ChunkPos) (pair : ChunkPos × Chunk) :
    Option (World × List ChunkPos) := do
  let s ← acc.1.chunks.insert pair.1 pair.2
  pure ({ acc.1 with chunks := s }, acc.2 ++ [pair.1])

/-- Source `World::par_insert_many`: generate every requested chunk against the
pre-state (the parallel `filter_map` borrows `&self`), then insert the
results sequentially; an insertion panic propagates as `none`. -/
def World.parInsertMany (w : World) (points : List ChunkPos) :
    Option (World × List ChunkPos) :=
  let generated := points.filterMap fun coords =>
    (w.generate tbl coords).map ((coords, ·))
  generated.foldlM insertStep (w, [])

/-- Source `Branch` from `world/mod.rs`: a map from chunk coordinates to a map
from local coordinates to candidate actions, modelled as nested
association lists (insertion order; keys distinct by construction of
`Branch.insert`). -/
abbrev Branch := List (ChunkPos × List (LPos × BlockAction))

/-- Source `Branch::default()`. -/
def Branch.empty : Branch := []

instance Branch.instDecEq : DecidableEq Branch := inferInstance

/-- Association-list lookup for the outer chunk map. -/
def Branch.findChunk (br : Branch) (cc : ChunkPos) :
    Option (List (LPos × BlockAction)) :=
  (br.find? (fun e => e.1 = cc)).map (·.2)

/-- Source `Branch::insert` (`world/mod.rs:509`): `entry(chunk).or_default()` then
`entry(block).and_modify(|_| unreachable!()).or_insert(action)`.  The
`unreachable!` on an already-occupied voxel slot is modelled as `none`. -/
def Branch.insert (br : Branch) (coords : WPos) (action : BlockAction) :
    Option Branch :=
  let cc := chunkCoords coords
  let bc := blockCoords coords
  match br.findChunk cc with
  | none => some (br ++ [(cc, [(bc, action)])])
  | some acts =>
    if (acts.find? (fun e => e.1 = bc)).isSome then none
    else some (br.map fun e => if e.1 = cc then (e.1, e.2 ++ [(bc, action)]) else e)

/-- Source `Branch::is_action_valid` (`world/mod.rs:480`): rejects coordinates
whose chunk y lies outside `Y_RANGE`; a `Place` of a block with a declared
required surface additionally needs the normal to be the up vector and the
block beneath to equal that surface; a `Destroy` always validates and, when
the block directly above declares a required surface, queues a dependent
`Destroy` for it via `Branch::insert` (whose panic propagates as `none`).
Returns the updated branch and the verdict. -/
def Branch.isActionValid (br : Branch) (chunks : ChunkStore) (coords : WPos)
    (normal : V3 Int) (action : BlockAction) : Option (Branch × Bool) :=
  if yRange (chunkCoords coords).y then
    match action with
    | .Place block =>
      match tbl.valid_surface block with
      | some surface =>
        some (br, normal = V3.up ∧ chunks.block (coords.sub normal) = surface)
      | none => some (br, true)
    | .Destroy =>
      let top := coords.add V3.up
      if (tbl.valid_surface (chunks.block top)).isSome then
        (br.insert top .Destroy).map ((·, true))
      else
        some (br, true)
  else
    some (br, false)

/-- Source `Branch::apply` (`world/mod.rs:403`): validate, and on success insert
the primary action. -/
def Branch.applyAction (br : Branch) (chunks : ChunkStore) (coords : WPos)
    (normal : V3 Int) (action : BlockAction) : Option (Branch × Bool) := do
  let (br, ok) ← br.isActionValid tbl chunks coords normal action
  if ok then
    let br ← br.insert coords action
    pure (br, true)
  else
    pure (br, false)

/-- The `Changes` triple returned by `Branch::merge`: inserted chunk
coordinates, removed chunk coordinates, mutated world voxels (the source's
two `FxHashSet`s and `Vec` are all modelled as lists). -/
abbrev Changes := List ChunkPos × List ChunkPos × List WPos

/-- The occupied-entry body of `Branch::merge`: apply each action with
`Chunk::apply`, collecting the voxels actually mutated. -/
def Chunk.applyAll (c : Chunk) (acts : List (LPos × BlockAction)) :
    Chunk × List (LPos × BlockAction) :=
  acts.foldl
    (fun (st : Chunk × List (LPos × BlockAction)) pa =>
      let (c', ok) := st.1.apply tbl pa.1 pa.2
      (c', if ok then st.2 ++ [pa] else st.2))
    (c, [])

/-- The vacant-entry body of `Branch::merge`: apply each (pre-filtered)
action with `Chunk::apply_unchecked` onto a default chunk. -/
def Chunk.applyAllUnchecked (c : Chunk) (acts : List (LPos × BlockAction)) : Chunk :=
  acts.foldl (fun ch pa => ch.applyUnchecked tbl pa.1 pa.2) c

/-- The per-chunk-entry body of the `Branch::merge` loop: an occupied
chunk gets the actions applied in place and is removed when it becomes
empty; a vacant coordinate gets the actions filtered by
`Block::Air::is_action_valid` and, when any survive, a freshly synthesized
chunk; hits, inserts and removals accumulate. -/
def mergeEntry
    (st : ChunkStore × List (WPos × BlockAction) × List ChunkPos × List ChunkPos)
    (entry : ChunkPos × List (LPos × BlockAction)) :
    ChunkStore × List (WPos × BlockAction) × List ChunkPos × List ChunkPos :=
  let chunks := st.1
  let hits := st.2.1
  let inserts := st.2.2.1
  let removals := st.2.2.2
  let cc := entry.1
  let acts := entry.2
  match chunks cc with
  | some chunk =>
    let res := chunk.applyAll tbl acts
    let hits2 := hits ++ res.2.map fun pa => (worldCoords cc pa.1, pa.2)
    if res.1.isEmpty then (chunks.remove cc, hits2, inserts, removals ++ [cc])
    else (chunks.set cc res.1, hits2, inserts, removals)
  | none =>
    let acts2 := acts.filter fun pa => Block.Air.isActionValid pa.2
    if acts2.isEmpty then (chunks, hits, inserts, removals)
    else
      let chunk := Chunk.empty.applyAllUnchecked tbl acts2
      (chunks.set cc chunk,
        hits ++ acts2.map (fun pa => (worldCoords cc pa.1, pa.2)),
        inserts ++ [cc], removals)

/-- Source `Branch::merge` (`world/mod.rs:418`), parametric in the lighting
engine's `WorldLight::apply` (its module is not among the sources at hand;
its result only feeds the returned block-update list).  Folds
`mergeEntry` over the branch, then logs every hit into the `ActionStore`
and expands the hit list with the lighting result. -/
def Branch.merge
    (lightApply : ChunkStore → WPos → BlockAction → List WPos)
    (br : Branch) (w : World) : World × Changes :=
  let folded := br.foldl (mergeEntry tbl) (w.chunks, [], [], [])
  let chunks := folded.1
  let hits := folded.2.1
  let inserts := folded.2.2.1
  let removals := folded.2.2.2
  let actions := hits.foldl (fun (s : ActionStore) ha => s.insert ha.1 ha.2) w.actions
  let blockUpdates := hits.flatMap fun ha => ha.1 :: lightApply chunks ha.1 ha.2
  ({ w with chunks := chunks, actions := actions },
    (inserts, removals, blockUpdates))

/-- Source `Side` from `block/mod.rs`. -/
inductive Side where
  | Front
  | Right
  | Back
  | Left
  | Up
  | Down
  deriving DecidableEq, Repr

/-- Source `Corner` from `block/mod.rs`. -/
inductive Corner where
  | LowerLeft
  | LowerRight
  | UpperRight
  | UpperLeft
  deriving DecidableEq, Repr

/-- Source `Component` from `block/mod.rs`. -/
inductive Component where
  | Edge1
  | Edge2
  | Corner
  deriving DecidableEq, Repr

/-- Source `SIDE_DELTAS`: the unit offset of each side. -/
def sideDelta : Side → V3 Int
  | .Front => ⟨0, 0, -1⟩
  | .Right => ⟨1, 0, 0⟩
  | .Back => ⟨0, 0, 1⟩
  | .Left => ⟨-1, 0, 0⟩
  | .Up => ⟨0, 1, 0⟩
  | .Down => ⟨0, -1, 0⟩

/-- Source `SIDE_CORNER_SIDES`: for each side and corner, the two sides whose
deltas locate that corner. -/
def sideCornerSides : Side → Corner → Side × Side
  | .Front, .LowerLeft => (.Left, .Down)
  | .Front, .LowerRight => (.Right, .Down)
  | .Front, .UpperRight => (.Right, .Up)
  | .Front, .UpperLeft => (.Left, .Up)
  | .Right, .LowerLeft => (.Front, .Down)
  | .Right, .LowerRight => (.Back, .Down)
  | .Right, .UpperRight => (.Back, .Up)
  | .Right, .UpperLeft => (.Front, .Up)
  | .Back, .LowerLeft => (.Right, .Down)
  | .Back, .LowerRight => (.Left, .Down)
  | .Back, .UpperRight => (.Left, .Up)
  | .Back, .UpperLeft => (.Right, .Up)
  | .Left, .LowerLeft => (.Back, .Down)
  | .Left, .LowerRight => (.Front, .Down)
  | .Left, .UpperRight => (.Front, .Up)
  | .Left, .UpperLeft => (.Back, .Up)
  | .Up, .LowerLeft => (.Left, .Front)
  | .Up, .LowerRight => (.Right, .Front)
  | .Up, .UpperRight => (.Right, .Back)
  | .Up, .UpperLeft => (.Left, .Back)
  | .Down, .LowerLeft => (.Left, .Back)
  | .Down, .LowerRight => (.Right, .Back)
  | .Down, .UpperRight => (.Right, .Front)
  | .Down, .UpperLeft => (.Left, .Front)

/-- Source `SIDE_CORNER_COMPONENT_DELTAS`: computed from the two corner sides as
in the source (`delta = s1 + s2 + s3`; edge deltas drop one of the two). -/
def sideCornerComponentDelta (s1 : Side) (c : Corner) : Component → V3 Int :=
  let (s2, s3) := sideCornerSides s1 c
  let delta := (sideDelta s1).add ((sideDelta s2).add (sideDelta s3))
  fun comp =>
    match comp with
    | .Edge1 => delta.sub (sideDelta s3)
    | .Edge2 => delta.sub (sideDelta s2)
    | .Corner => delta

/-- Source `BlockArea` from `block/mod.rs`: a 3×3×3 opacity snapshot over deltas
with components in `-1..=1`, modelled by its lookup function (the source's
bit array).  Out-of-range indexing `assert!`s in the source and never
occurs in the embedded uses; `from_fn` masks out-of-range deltas so that a
constructed area is `false` there, like the source's zeroed bit array. -/
def BlockArea := V3 Int → Bool

/-- The padded axis range `-1..=1` (`BlockArea::AXIS_RANGE`). -/
def BlockArea.inRange (delta : V3 Int) : Bool :=
  -1 ≤ delta.x ∧ delta.x ≤ 1 ∧ -1 ≤ delta.y ∧ delta.y ≤ 1 ∧
    -1 ≤ delta.z ∧ delta.z ≤ 1

/-- Source `BlockArea::from_fn`: record `f` at every in-range delta. -/
def BlockArea.fromFn (f : V3 Int → Bool) : BlockArea :=
  fun delta => BlockArea.inRange delta && f delta

/-- Source `BlockArea::is_opaque`: read the recorded bit. -/
def BlockArea.isOpaque (a : BlockArea) (delta : V3 Int) : Bool := a delta

/-- Source `BlockArea::is_transparent`: the negation. -/
def BlockArea.isTransparent (a : BlockArea) (delta : V3 Int) : Bool :=
  !a.isOpaque delta

/-- Source `BlockArea::components`: the opacity of the two edge-adjacent and the
diagonal neighbor cell of a side's corner. -/
def BlockArea.components (a : BlockArea) (side : Side) (corner : Corner) :
    Component → Bool :=
  fun comp => a.isOpaque (sideCornerComponentDelta side corner comp)

/-- Source `Block::ao` (`block/mod.rs:105`): 0 when both edges are opaque, else
`3 - (edge1 + edge2 + corner)`. -/
def Block.ao (side : Side) (corner : Corner) (area : BlockArea) : Nat :=
  let components := area.components side corner
  let edge1 := components .Edge1
  let edge2 := components .Edge2
  let corner := components .Corner
  if edge1 && edge2 then 0
  else 3 - (edge1.toNat + edge2.toNat + corner.toNat)

/-- Source `World::send_events` (`world/mod.rs:238`): send each event in order;
`break` on the first failed send.  `EventLoopProxy::send_event` is
modelled as an arbitrary state machine `step` over a channel state `σ`
(`none` = the send errored); the function is generic in the event type
like the source's `I: IntoIterator<Item = ServerEvent>`.  Returns the
final channel state and the list of successfully sent events. -/
def sendEvents {σ α : Type} (step : σ → α → Option σ) :
    σ → List α → σ × List α
  | s, [] => (s, [])
  | s, e :: rest =>
    match step s e with
    | none => (s, [])
    | some s' =>
      let (s'', sent) := sendEvents step s' rest
      (s'', e :: sent)

/-- The index of the first event whose send fails (the length of the
successfully-sent prefix). -/
def firstFailIdx {σ α : Type} (step : σ → α → Option σ) : σ → List α → Nat
  | _, [] => 0
  | s, e :: rest =>
    match step s e with
    | none => 0
    | some s' => firstFailIdx step s' rest + 1

/-- The outbound `ServerEvent`s the world event handler emits, with the
chunk-diff payloads elided (`ChunkData`/`BlockHoverData` are large derived
snapshots; the claims concern only event kinds, coordinates and counts). -/
inductive SEvent where
  | ChunkLoaded (coords : ChunkPos) (is_important : Bool)
  | ChunkUnloaded (coords : ChunkPos)
  | ChunkUpdated (coords : ChunkPos) (is_important : Bool)
  | BlockHovered
  deriving DecidableEq, Repr

/-- Modelled from the spec: `WorldArea` (`game/player`) is not among the
sources at hand; the spec describes it as "a viewer's visible window,
center + radius, set membership test".  Membership is modelled as the
cube of chunk coordinates within Chebyshev distance `radius` of the
center. -/
structure WorldArea where
  center : ChunkPos
  radius : Nat

/-- The membership test of a viewer's area. -/
def WorldArea.contains (a : WorldArea) (p : ChunkPos) : Bool :=
  (p.x - a.center.x).natAbs ≤ a.radius ∧ (p.y - a.center.y).natAbs ≤ a.radius ∧
    (p.z - a.center.z).natAbs ≤ a.radius

/-- One axis of the area's point enumeration. -/
def WorldArea.axisPoints (c : Int) (r : Nat) : List Int :=
  (List.range (2 * r + 1)).map fun i : Nat => c - r + (i : Int)

/-- Source `WorldArea::points`: every chunk coordinate of the area, enumerated
without duplicates. -/
def WorldArea.points (a : WorldArea) : List ChunkPos :=
  (WorldArea.axisPoints a.center.x a.radius).flatMap fun x =>
    (WorldArea.axisPoints a.center.y a.radius).flatMap fun y =>
      (WorldArea.axisPoints a.center.z a.radius).map fun z => ⟨x, y, z⟩

/-- Modelled from the spec: `WorldArea::par_exclusive_points`, the
"newly-entered chunk coordinates" — the points of `curr` not contained in
`prev`. -/
def WorldArea.exclusivePointsOf (curr prev : WorldArea) : List ChunkPos :=
  curr.points.filter fun p => !prev.contains p

/-- Source `World::exclusive_points` (`world/mod.rs:80`): the points of `curr`
that are in `curr`, not in `prev`, and present in the chunk store. -/
def World.exclusivePoints (w : World) (prev curr : WorldArea) : List ChunkPos :=
  curr.points.filter fun coords =>
    curr.contains coords && !prev.contains coords && w.chunks.contains coords

/-- Source `ChunkArea::chunk_deltas`: the 3×3×3 chunk neighborhood offsets
(`chunk/area.rs` is not among the sources at hand; per the spec the chunk
halo is the 3×3×3 neighborhood). -/
def chunkAreaDeltas : List (V3 Int) :=
  ([-1, 0, 1] : List Int).flatMap fun dx =>
    ([-1, 0, 1] : List Int).flatMap fun dy =>
      ([-1, 0, 1] : List Int).map fun dz => ⟨dx, dy, dz⟩

/-- Source `BlockArea::deltas` as used by `World::block_area_points`: the 3×3×3
block neighborhood offsets. -/
def blockAreaDeltas : List (V3 Int) := chunkAreaDeltas

/-- Source `World::chunk_area_points`: the chunk halo of a set of chunks. -/
def World.chunkAreaPoints (points : List ChunkPos) : List ChunkPos :=
  points.flatMap fun coords => chunkAreaDeltas.map fun delta => coords.add delta

/-- Source `World::block_area_points`: the block halo of a set of voxels. -/
def World.blockAreaPoints (blockUpdates : List WPos) : List WPos :=
  blockUpdates.flatMap fun coords => blockAreaDeltas.map fun delta => coords.add delta

/-- Source `World::updates` (`world/mod.rs:190`): chunks needing an update diff —
the chunk halo of the mutated voxels plus the chunk halo of the inserted
chunks, restricted to stored chunks that are neither fresh loads nor
unloads. -/
def World.updates (w : World) (loads unloads : List ChunkPos)
    (blockUpdates : List WPos) (inserts : List ChunkPos) : List ChunkPos :=
  (((World.blockAreaPoints blockUpdates).map chunkCoords)
      ++ World.chunkAreaPoints inserts).filter fun coords =>
    w.chunks.contains coords && !loads.contains coords && !unloads.contains coords

/-- The `WorldEvent::WorldAreaChanged` arm of `EventHandler::handle`
(`world/mod.rs:286`): generate and insert the newly entered chunks,
compute the entered/left point sets, light up (the lighting engine is
passed as an oracle `lightUp`, its module not being among the sources at
hand), compute the update halo, recompute hover (which emits at most one
`BlockHovered` event, `hoverChanged` telling whether it fires), then emit
unloads, loads and filtered updates in that order.  Returns the new world
state and the emitted event sequence; an insertion panic propagates as
`none`. -/
def World.handleAreaChanged (w : World) (prev curr : WorldArea)
    (lightUp : List ChunkPos → List WPos) (hoverChanged : Bool) :
    Option (World × List SEvent) :=
  (w.parInsertMany tbl (curr.exclusivePointsOf prev)).map fun wi =>
    let w' := wi.1
    let inserts := wi.2
    let loads := w'.exclusivePoints prev curr
    let unloads := w'.exclusivePoints curr prev
    let blockUpdates := lightUp inserts
    let updates := w'.updates loads unloads blockUpdates inserts
    (w',
      (if hoverChanged then [SEvent.BlockHovered] else [])
        ++ unloads.map SEvent.ChunkUnloaded
        ++ loads.map (SEvent.ChunkLoaded · false)
        ++ (updates.filter curr.contains).map (SEvent.ChunkUpdated · false))

/-- The event sequence emitted by the `WorldAreaChanged` arm (empty when
the handler panics). -/
def World.areaChangedEvents (w : World) (prev curr : WorldArea)
    (lightUp : List ChunkPos → List WPos) (hoverChanged : Bool) : List SEvent :=
  ((w.handleAreaChanged tbl prev curr lightUp hoverChanged).map
    (fun r => r.2)).getD []

/-- The verdict of `Branch::is_action_valid` on a `Place`, read off the
source: the chunk y coordinate lies within `Y_RANGE` and, when the placed
block declares a required supporting surface, the normal is the up vector
and the block directly beneath the target equals that surface. -/
def placeVerdict (chunks : ChunkStore) (coords : WPos) (normal : V3 Int)
    (block : Block) : Bool :=
  if yRange (chunkCoords coords).y then
    match tbl.valid_surface block with
    | some surface =>
      decide (normal = V3.up ∧ chunks.block (coords.sub normal) = surface)
    | none => true
  else false

/-- The no-empty-chunk store invariant: every present chunk has a strictly
positive non-air counter. -/
def StoreInv (s : ChunkStore) : Prop :=
  ∀ c ch, s c = some ch → 0 < ch.non_air_count

/-- Counter accuracy: the running non-air counter equals the number of
non-air blocks in the grid. -/
def Chunk.accurate (c : Chunk) : Prop :=
  c.non_air_count = (Chunk.pointsList.map c.blocks).countP (fun b => b ≠ .Air)

/-- World states reachable from a fresh `World` by generation insertions
(`World::par_insert_many`, which generates via `World::generate`) and edit
merges (`Branch::merge`, over an arbitrary candidate branch and an
arbitrary lighting oracle). -/
inductive Reachable (tbl : BlockTable) : World → Prop where
  | init (gen : ChunkPos → LPos → Block) :
      Reachable tbl ⟨ChunkStore.empty, ActionStore.empty, gen⟩
  | insertMany {w : World} {pts : List ChunkPos} {w2 : World} {res : List ChunkPos} :
      Reachable tbl w → w.parInsertMany tbl pts = some (w2, res) →
      Reachable tbl w2
  | mergeStep {w : World} {br : Branch}
      {la : ChunkStore → WPos → BlockAction → List WPos}
      {w2 : World} {ch : Changes} :
      Reachable tbl w → Branch.merge tbl la br w = (w2, ch) →
      Reachable tbl w2

/-- A sample block table for concrete witnesses: `Sand` requires a `Sand`
supporting surface, nothing glows. -/
def tblS : BlockTable where
  valid_surface := fun b => if b = .Sand then some .Sand else none
  is_glowing := fun _ => false

/-- A sample block table for concrete witnesses: no block declares a
required surface, nothing glows. -/
def tbl0 : BlockTable where
  valid_surface := fun _ => none
  is_glowing := fun _ => false

/-- A sample generator producing solid sand everywhere. -/
def genS : ChunkPos → LPos → Block := fun _ _ => .Sand

/-- A sample single-chunk store: one all-sand chunk at the origin. -/
def storeS : ChunkStore :=
  fun c => if c = ⟨0, 0, 0⟩ then some ⟨fun _ => .Sand, 4096, 0⟩ else none

/-- A sample store with one all-sand chunk at chunk y = 20, outside the
vertical bound. -/
def storeHigh : ChunkStore :=
  fun c => if c = ⟨0, 20, 0⟩ then some ⟨fun _ => .Sand, 4096, 0⟩ else none

/-- A sample store with one all-sand chunk at chunk coordinate (1,1,1). -/
def storeCorner : ChunkStore :=
  fun c => if c = ⟨1, 1, 1⟩ then some ⟨fun _ => .Sand, 4096, 0⟩ else none

/-- A fresh sample world whose generator yields solid sand. -/
def worldS : World := ⟨ChunkStore.empty, ActionStore.empty, genS⟩

/-- A sample world holding one chunk at (1,1,1) and generating only air. -/
def worldCorner : World := ⟨storeCorner, ActionStore.empty, fun _ _ => .Air⟩

/-- A sample world with an empty store generating only air. -/
def worldAir : World := ⟨ChunkStore.empty, ActionStore.empty, fun _ _ => .Air⟩

/-- A trivial lighting oracle for witnesses. -/
def la0 : ChunkStore → WPos → BlockAction → List WPos := fun _ _ _ => []

/-- A sample viewer area of radius 1 around the origin. -/
def prevA : WorldArea := ⟨⟨0, 0, 0⟩, 1⟩

/-- A sample viewer area of radius 0 around the origin. -/
def currA : WorldArea := ⟨⟨0, 0, 0⟩, 0⟩

/-- A sample all-transparent neighbor snapshot. -/
def areaFalse : BlockArea := fun _ => false

/-- A sample one-action branch: place sand at the origin voxel. -/
def br1 : Branch := [(⟨0, 0, 0⟩, [(⟨0, 0, 0⟩, .Place .Sand)])]

/-- The chunk `Branch::merge` synthesizes for `br1` on a vacant origin. -/
def chW : Chunk :=
  Chunk.applyAllUnchecked tbl0 Chunk.empty
    ([((⟨0, 0, 0⟩ : LPos), BlockAction.Place .Sand)].filter
      fun pa => Block.Air.isActionValid pa.2)

/-- A sample channel state machine over `Nat` states: the first send
succeeds (moving the state to 1), every later send fails. -/
def step0 : Nat → Nat → Option Nat := fun s _ => if s = 0 then some 1 else none

/-- C9: placing air never mutates a block: `Block::place` succeeds only
when the current block is air and the placed block is not air, so
`BlockAction::Place(Block::Air)` reports no mutation and leaves the block
unchanged, and `Chunk::apply` of such an action changes neither the grid
nor any counter and reports no mutation. -/
theorem c9_place_air_noop :
    (∀ b : Block, b.apply (.Place .Air) = (b, false)) ∧
    (∀ b block : Block, (b.place block).2 = true ↔ b = .Air ∧ block ≠ .Air) ∧
    (∀ (tbl : BlockTable) (c : Chunk) (p : LPos),
      c.apply tbl p (.Place .Air) = (c, false)) := by
  refine ⟨fun b => ?_, fun b block => ?_, fun tbl c p => ?_⟩
  · simp [Block.apply, Block.place]
  · unfold Block.place
    split
    · rename_i h
      simpa using h
    · rename_i h
      simpa using h
  · simp [Chunk.apply, Block.apply, Block.place]

/-- C10: `BlockArea::from_fn`/`is_opaque` round-trip: for every opacity
predicate and every delta whose components lie in the padded axis range
`-1..=1`, the snapshot returns exactly the predicate's value, and
`is_transparent` returns its negation. -/
theorem c10_blockarea_roundtrip (f : V3 Int → Bool) (delta : V3 Int)
    (h : BlockArea.inRange delta = true) :
    (BlockArea.fromFn f).isOpaque delta = f delta ∧
    (BlockArea.fromFn f).isTransparent delta = !f delta := by
  unfold BlockArea.isTransparent BlockArea.isOpaque BlockArea.fromFn
  rw [h]
  simp

/-- Witness for C10 at a concrete in-range delta and predicate. -/
theorem c10_blockarea_roundtrip_witness :
    BlockArea.inRange ⟨1, 0, -1⟩ = true ∧
    ((BlockArea.fromFn (fun d => d.x = 1)).isOpaque ⟨1, 0, -1⟩
        = (fun d : V3 Int => decide (d.x = 1)) ⟨1, 0, -1⟩ ∧
      (BlockArea.fromFn (fun d => d.x = 1)).isTransparent ⟨1, 0, -1⟩
        = !(fun d : V3 Int => decide (d.x = 1)) ⟨1, 0, -1⟩) :=
  ⟨by decide, c10_blockarea_roundtrip (fun d => d.x = 1) ⟨1, 0, -1⟩ (by decide)⟩

/-- C5: the ambient-occlusion level of every side/corner on every
neighbor snapshot is at most 3 (hence in {0,1,2,3}), is 0 exactly when
both edge-adjacent neighbor cells are opaque, and otherwise equals 3 minus
the number of opaque cells among the two edge-adjacent and the one
diagonal-adjacent neighbor; as a function of the snapshot alone it depends
on nothing else. -/
theorem c5_ao_bounds (side : Side) (corner : Corner) (area : BlockArea) :
    Block.ao side corner area ≤ 3 ∧
    (Block.ao side corner area = 0 ↔
      (area.components side corner .Edge1 = true ∧
        area.components side corner .Edge2 = true)) ∧
    (¬(area.components side corner .Edge1 = true ∧
        area.components side corner .Edge2 = true) →
      Block.ao side corner area =
        3 - ((area.components side corner .Edge1).toNat
          + (area.components side corner .Edge2).toNat
          + (area.components side corner .Corner).toNat)) := by
  unfold Block.ao
  cases h1 : area.components side corner .Edge1 <;>
    cases h2 : area.components side corner .Edge2 <;>
      cases h3 : area.components side corner .Corner <;>
        simp [h1, h2, h3]

/-- Witness for C5 at a concrete side, corner and snapshot. -/
theorem c5_ao_bounds_witness :
    ¬(areaFalse.components .Front .LowerLeft .Edge1 = true ∧
        areaFalse.components .Front .LowerLeft .Edge2 = true) ∧
    Block.ao .Front .LowerLeft areaFalse =
      3 - ((areaFalse.components .Front .LowerLeft .Edge1).toNat
        + (areaFalse.components .Front .LowerLeft .Edge2).toNat
        + (areaFalse.components .Front .LowerLeft .Corner).toNat) :=
  ⟨by decide, (c5_ao_bounds .Front .LowerLeft areaFalse).2.2 (by decide)⟩

/-- C7: `ChunkStore::insert` traps (modelled as `none`) exactly when a
chunk is already present at the coordinates, and otherwise stores the
chunk so that a subsequent `get` returns it. -/
theorem c7_insert_traps_occupied (s : ChunkStore) (c : ChunkPos) (ch : Chunk) :
    (s.insert c ch = none ↔ (s c).isSome = true) ∧
    (∀ s2, s.insert c ch = some s2 → s2.get c = some ch) := by
  constructor
  · unfold ChunkStore.insert
    split
    · rename_i h
      simp [h]
    · rename_i h
      simp [h]
  · intro s2 hs
    unfold ChunkStore.insert at hs
    split at hs
    · cases hs
    · cases hs
      simp [ChunkStore.get, ChunkStore.set]

/-- Witness for C7: inserting into the empty store succeeds and `get`
returns the inserted chunk. -/
theorem c7_insert_traps_occupied_witness :
    ChunkStore.empty.insert ⟨0, 0, 0⟩ Chunk.empty
        = some (ChunkStore.empty.set ⟨0, 0, 0⟩ Chunk.empty) ∧
    (ChunkStore.empty.set ⟨0, 0, 0⟩ Chunk.empty).get ⟨0, 0, 0⟩ = some Chunk.empty :=
  ⟨rfl,
    (c7_insert_traps_occupied ChunkStore.empty ⟨0, 0, 0⟩ Chunk.empty).2
      (ChunkStore.empty.set ⟨0, 0, 0⟩ Chunk.empty) rfl⟩

/-- C8: `World::send_events` sends the events in order up to but not
including the first event whose send fails, then stops: the sent sequence
is the prefix of length `firstFailIdx`, that index never exceeds the event
count (the loop is total, no panic), and when it is a proper prefix the
very next event's send from the reached channel state fails. -/
theorem c8_send_events_stops {σ α : Type} (step : σ → α → Option σ)
    (s : σ) (evs : List α) :
    (sendEvents step s evs).2 = evs.take (firstFailIdx step s evs) ∧
    firstFailIdx step s evs ≤ evs.length ∧
    (∀ e, evs[firstFailIdx step s evs]? = some e →
      step (sendEvents step s evs).1 e = none) := by
  induction evs generalizing s with
  | nil => simp [sendEvents, firstFailIdx]
  | cons e rest ih =>
    cases hstep : step s e with
    | none => simp [sendEvents, firstFailIdx, hstep]
    | some s1 =>
      obtain ⟨ih1, ih2, ih3⟩ := ih s1
      refine ⟨?_, ?_, ?_⟩
      · simp [sendEvents, firstFailIdx, hstep, ih1]
      · simp [firstFailIdx, hstep]
        omega
      · intro e2 he2
        simp [firstFailIdx, hstep] at he2
        simpa [sendEvents, firstFailIdx, hstep] using ih3 e2 he2

/-- Witness for C8 on a concrete channel that accepts one send then
fails. -/
theorem c8_send_events_stops_witness :
    ([5, 6, 7] : List Nat)[firstFailIdx step0 0 [5, 6, 7]]? = some 6 ∧
    step0 (sendEvents step0 0 [5, 6, 7]).1 6 = none :=
  ⟨by decide, (c8_send_events_stops step0 0 [5, 6, 7]).2.2 6 (by decide)⟩

/-- Counterexample to C2 as stated: with no declared surface requirement,
`Branch::is_action_valid` accepts a `Place` onto a voxel that is *not*
empty (the store holds sand at the target), and `Branch::apply` admits the
action into the branch; the emptiness check the claim describes does not
happen at validation time. -/
theorem c2_counterexample_place_on_occupied :
    storeS.block ⟨0, 0, 0⟩ = .Sand ∧
    Branch.isActionValid tbl0 Branch.empty storeS ⟨0, 0, 0⟩ V3.up (.Place .Sand)
      = some (Branch.empty, true) ∧
    Branch.applyAction tbl0 Branch.empty storeS ⟨0, 0, 0⟩ V3.up (.Place .Sand)
      = some ([(⟨0, 0, 0⟩, [(⟨0, 0, 0⟩, .Place .Sand)])], true) := by
  decide

/-- C2 (amended): `Branch::is_action_valid` accepts a `Place` exactly when
the target chunk's y coordinate lies within the vertical bound and, when
the placed block declares a required supporting surface, the normal equals
the up vector and the block directly beneath the target equals that
surface; the current content of the target voxel is not consulted
(emptiness is enforced later, by `Block::place` during the merge).  When
validation fails, no action enters the branch. -/
theorem c2_amended_place_validation (tbl : BlockTable) (chunks : ChunkStore)
    (br : Branch) (coords : WPos) (normal : V3 Int) (block : Block) :
    Branch.isActionValid tbl br chunks coords normal (.Place block)
      = some (br, placeVerdict tbl chunks coords normal block) ∧
    (placeVerdict tbl chunks coords normal block = false →
      Branch.applyAction tbl br chunks coords normal (.Place block)
        = some (br, false)) := by
  have hmain : Branch.isActionValid tbl br chunks coords normal (.Place block)
      = some (br, placeVerdict tbl chunks coords normal block) := by
    unfold Branch.isActionValid placeVerdict
    split_ifs with hy
    · cases hv : tbl.valid_surface block <;> simp [hv]
    · rfl
  refine ⟨hmain, fun hfalse => ?_⟩
  unfold Branch.applyAction
  rw [hmain, hfalse]
  rfl

/-- Witness for the amended C2 at a concrete failing input (target above
the vertical bound). -/
theorem c2_amended_place_validation_witness :
    placeVerdict tbl0 storeS ⟨0, 320, 0⟩ V3.up .Sand = false ∧
    Branch.applyAction tbl0 Branch.empty storeS ⟨0, 320, 0⟩ V3.up (.Place .Sand)
      = some (Branch.empty, false) :=
  ⟨by decide,
    (c2_amended_place_validation tbl0 storeS Branch.empty ⟨0, 320, 0⟩ V3.up
      .Sand).2 (by decide)⟩

/-- Counterexample to C3 as stated: a `Destroy` whose target voxel is
non-air (the store holds sand there) is nevertheless rejected, because
the target chunk's y coordinate (20) lies outside the vertical bound;
Destroy validation does not succeed on every non-air voxel. -/
theorem c3_counterexample_destroy_out_of_bounds :
    storeHigh.block ⟨0, 320, 0⟩ = .Sand ∧
    Branch.isActionValid tbl0 Branch.empty storeHigh ⟨0, 320, 0⟩ V3.up .Destroy
      = some (Branch.empty, false) := by
  decide

/-- C3 (amended): within the vertical bound a `Destroy` always validates —
regardless of whether the target voxel is air — and queues a dependent
`Destroy` for the voxel directly above exactly when that voxel's block
declares a required supporting surface (whatever that surface type is);
the dependent `Destroy` is inserted directly into the branch without being
re-validated, so the cascade does not recurse; outside the vertical bound
a `Destroy` is rejected. -/
theorem c3_amended_destroy_validation (tbl : BlockTable) (chunks : ChunkStore)
    (br : Branch) (coords : WPos) (normal : V3 Int) :
    (yRange (chunkCoords coords).y = false →
      Branch.isActionValid tbl br chunks coords normal .Destroy
        = some (br, false)) ∧
    (yRange (chunkCoords coords).y = true →
      ((tbl.valid_surface (chunks.block (coords.add V3.up))).isSome = true →
        Branch.isActionValid tbl br chunks coords normal .Destroy
          = (br.insert (coords.add V3.up) .Destroy).map (fun b => (b, true))) ∧
      ((tbl.valid_surface (chunks.block (coords.add V3.up))).isSome = false →
        Branch.isActionValid tbl br chunks coords normal .Destroy
          = some (br, true))) := by
  refine ⟨fun hy => ?_, fun hy => ⟨fun hs => ?_, fun hs => ?_⟩⟩
  · unfold Branch.isActionValid
    simp [hy]
  · unfold Branch.isActionValid
    simp [hy, hs]
  · unfold Branch.isActionValid
    simp [hy, hs]

/-- Witness for the amended C3 at a concrete input where the block above
requires a surface: the dependent `Destroy` is queued. -/
theorem c3_amended_destroy_validation_witness :
    yRange (chunkCoords ⟨0, 0, 0⟩).y = true ∧
    (tblS.valid_surface (storeS.block (V3.add ⟨0, 0, 0⟩ V3.up))).isSome = true ∧
    Branch.isActionValid tblS Branch.empty storeS ⟨0, 0, 0⟩ V3.up .Destroy
      = (Branch.empty.insert (V3.add ⟨0, 0, 0⟩ V3.up) .Destroy).map
          (fun b => (b, true)) :=
  ⟨by decide, by decide,
    ((c3_amended_destroy_validation tblS storeS Branch.empty ⟨0, 0, 0⟩ V3.up).2
      (by decide)).1 (by decide)⟩

theorem Chunk.mem_pointsList (p : LPos) : p ∈ Chunk.pointsList := by
  unfold Chunk.pointsList
  simp only [List.mem_flatMap, List.mem_map, List.mem_finRange, true_and]
  exact ⟨p.x, p.y, p.z, rfl⟩

theorem Chunk.pointsList_nodup : Chunk.pointsList.Nodup := by
  have hz : ∀ x y : Fin 16,
      ((List.finRange 16).map fun z => (⟨x, y, z⟩ : LPos)).Nodup := by
    intro x y
    refine (List.nodup_finRange 16).map ?_
    intro a b h
    simpa using h
  have hy : ∀ x : Fin 16,
      ((List.finRange 16).flatMap fun y =>
        (List.finRange 16).map fun z => (⟨x, y, z⟩ : LPos)).Nodup := by
    intro x
    refine List.nodup_flatMap.2 ⟨fun y _ => hz x y, ?_⟩
    refine List.Pairwise.imp ?_ (List.nodup_finRange 16)
    intro y1 y2 hne a ha1 ha2
    simp only [List.mem_map, List.mem_finRange, true_and] at ha1 ha2
    obtain ⟨z1, rfl⟩ := ha1
    obtain ⟨z2, h2⟩ := ha2
    simp only [V3.mk.injEq] at h2
    exact hne h2.2.1.symm
  unfold Chunk.pointsList
  refine List.nodup_flatMap.2 ⟨fun x _ => hy x, ?_⟩
  refine List.Pairwise.imp ?_ (List.nodup_finRange 16)
  intro x1 x2 hne a ha1 ha2
  simp only [List.mem_flatMap, List.mem_map, List.mem_finRange, true_and] at ha1 ha2
  obtain ⟨y1, z1, rfl⟩ := ha1
  obtain ⟨y2, z2, h2⟩ := ha2
  simp only [V3.mk.injEq] at h2
  exact hne h2.1.symm

theorem countP_map_update {α β : Type} [DecidableEq α] (l : List α)
    (hl : l.Nodup) (p : α) (hp : p ∈ l) (f : α → β) (b : β) (pred : β → Bool) :
    (l.map fun q => if q = p then b else f q).countP pred
      = (l.map f).countP pred - (pred (f p)).toNat + (pred b).toNat := by
  induction l with
  | nil => cases hp
  | cons q rest ih =>
    rcases List.mem_cons.1 hp with heq | hp2
    · subst heq
      have hnot : p ∉ rest := (List.nodup_cons.1 hl).1
      have hrest : rest.map (fun a => if a = p then b else f a) = rest.map f := by
        refine List.map_congr_left fun a ha => ?_
        have hne : a ≠ p := fun h => hnot (h ▸ ha)
        simp [hne]
      simp only [List.map_cons, List.countP_cons, hrest, if_pos rfl]
      cases hb2 : pred b <;> cases hfp : pred (f p) <;> simp [hb2, hfp]
    · have hq : q ≠ p := by
        rintro rfl
        exact (List.nodup_cons.1 hl).1 hp2
      have hge : (pred (f p)).toNat ≤ (rest.map f).countP pred := by
        cases hpred : pred (f p)
        · simp
        · have hpos : 0 < (rest.map f).countP pred :=
            List.countP_pos_iff.2 ⟨f p, List.mem_map_of_mem _ hp2, hpred⟩
          simpa using hpos
      have ih2 := ih ((List.nodup_cons.1 hl).2) hp2
      simp only [List.map_cons, List.countP_cons, if_neg hq, ih2]
      clear ih ih2 hp hl
      cases hfp : pred (f p) <;>
        cases hb2 : pred b <;>
          cases hfq : pred (f q) <;>
            simp_all

theorem Chunk.accurate_fromFn (tbl : BlockTable) (f : LPos → Block) :
    (Chunk.fromFn tbl f).accurate := rfl

theorem Chunk.accurate_applyUnchecked (tbl : BlockTable) {c : Chunk}
    (h : c.accurate) (p : LPos) (a : BlockAction) :
    (c.applyUnchecked tbl p a).accurate := by
  unfold Chunk.accurate at h ⊢
  unfold Chunk.applyUnchecked Chunk.adjustCounts Chunk.setBlock
  simp only []
  rw [countP_map_update Chunk.pointsList Chunk.pointsList_nodup p
    (Chunk.mem_pointsList p) c.blocks _ _, ← h]
  generalize (c.blocks p).applyUnchecked a = curr
  generalize c.blocks p = prev
  by_cases h1 : prev = .Air <;>
    by_cases h2 : curr = .Air <;>
      simp [h1, h2]

theorem foldApplyUnchecked_accurate (tbl : BlockTable) :
    ∀ (acts : List (LPos × BlockAction)) {c : Chunk}, c.accurate →
      (acts.foldl (fun ch pa => ch.applyUnchecked tbl pa.1 pa.2) c).accurate := by
  intro acts
  induction acts with
  | nil => intro c h; exact h
  | cons pa rest ih =>
    intro c h
    rw [List.foldl_cons]
    exact ih (Chunk.accurate_applyUnchecked tbl h pa.1 pa.2)

theorem Chunk.isEmpty_iff_allAir {c : Chunk} (h : c.accurate) :
    c.isEmpty = true ↔ ∀ p, c.blocks p = .Air := by
  unfold Chunk.isEmpty
  rw [Chunk.accurate] at h
  rw [h]
  simp only [decide_eq_true_eq, List.countP_eq_zero, List.mem_map]
  constructor
  · intro hall p
    have := hall (c.blocks p) ⟨p, Chunk.mem_pointsList p, rfl⟩
    simpa using this
  · rintro hall b ⟨p, hp, rfl⟩
    simp [hall p]

theorem World.replayed_accurate (tbl : BlockTable) (w : World) (coords : ChunkPos) :
    (w.replayed tbl coords).accurate :=
  foldApplyUnchecked_accurate tbl _ (Chunk.accurate_fromFn tbl _)

/-- C4: `World::generate` returns `None` when the chunk is already
present; on an absent coordinate it returns the externally generated chunk
with every logged action replayed, except that an all-air replayed chunk
yields `None`.  The function borrows the world immutably (its type is
`World → Option Chunk`), so the store and all other world state are
unchanged by construction. -/
theorem c4_generate_characterization (tbl : BlockTable) (w : World)
    (coords : ChunkPos) :
    ((w.chunks coords).isSome = true → w.generate tbl coords = none) ∧
    (w.chunks coords = none →
      ((∀ p, (w.replayed tbl coords).blocks p = .Air) →
        w.generate tbl coords = none) ∧
      ((∃ p, (w.replayed tbl coords).blocks p ≠ .Air) →
        w.generate tbl coords = some (w.replayed tbl coords))) := by
  refine ⟨fun hp => ?_, fun ha => ⟨fun hair => ?_, fun hne => ?_⟩⟩
  · unfold World.generate
    simp [hp]
  · have he : (w.replayed tbl coords).isEmpty = true :=
      (Chunk.isEmpty_iff_allAir (World.replayed_accurate tbl w coords)).2 hair
    unfold World.generate
    simp [ha, he]
  · have he : (w.replayed tbl coords).isEmpty = false := by
      rcases hne with ⟨p, hp2⟩
      rcases hb : (w.replayed tbl coords).isEmpty with _ | _
      · rfl
      · exact absurd
          ((Chunk.isEmpty_iff_allAir (World.replayed_accurate tbl w coords)).1 hb p)
          hp2
    unfold World.generate
    simp [ha, he]

theorem filterMap_const_none {α β : Type} (l : List α) :
    l.filterMap (fun _ => (none : Option β)) = [] := by
  induction l with
  | nil => rfl
  | cons a rest ih => simp [List.filterMap_cons, ih]

theorem actionStoreEmpty_actions (cc : ChunkPos) :
    ActionStore.empty.actions cc = [] := by
  unfold ActionStore.actions ActionStore.empty
  exact filterMap_const_none _

theorem worldS_replayed_blocks (coords : ChunkPos) (p : LPos) :
    (worldS.replayed tbl0 coords).blocks p = .Sand := by
  unfold World.replayed
  rw [show worldS.actions = ActionStore.empty from rfl, actionStoreEmpty_actions]
  rfl

/-- Witness for C4 on a fresh world whose generator yields solid sand. -/
theorem c4_generate_characterization_witness :
    worldS.chunks ⟨0, 0, 0⟩ = none ∧
    (∃ p, (worldS.replayed tbl0 ⟨0, 0, 0⟩).blocks p ≠ .Air) ∧
    worldS.generate tbl0 ⟨0, 0, 0⟩ = some (worldS.replayed tbl0 ⟨0, 0, 0⟩) :=
  ⟨rfl, ⟨⟨0, 0, 0⟩, by rw [worldS_replayed_blocks]; decide⟩,
    ((c4_generate_characterization tbl0 worldS ⟨0, 0, 0⟩).2 rfl).2
      ⟨⟨0, 0, 0⟩, by rw [worldS_replayed_blocks]; decide⟩⟩

theorem generate_pos (tbl : BlockTable) {w : World} {coords : ChunkPos}
    {ch : Chunk} (h : w.generate tbl coords = some ch) :
    0 < ch.non_air_count ∧ ch.isEmpty = false := by
  unfold World.generate at h
  split at h
  · cases h
  · split at h
    · cases h
    · rename_i hne
      cases h
      have hcount : (w.replayed tbl coords).non_air_count ≠ 0 := by
        simpa [Chunk.isEmpty] using hne
      exact ⟨Nat.pos_of_ne_zero hcount, by simpa using hne⟩

theorem StoreInv.set {s : ChunkStore} {cc : ChunkPos} {ch : Chunk}
    (h : StoreInv s) (hch : 0 < ch.non_air_count) : StoreInv (s.set cc ch) := by
  intro c ch2 hc
  unfold ChunkStore.set at hc
  by_cases hceq : c = cc
  · rw [if_pos hceq] at hc
    cases hc
    exact hch
  · rw [if_neg hceq] at hc
    exact h c ch2 hc

theorem StoreInv.remove {s : ChunkStore} {cc : ChunkPos}
    (h : StoreInv s) : StoreInv (s.remove cc) := by
  intro c ch2 hc
  unfold ChunkStore.remove at hc
  by_cases hceq : c = cc
  · rw [if_pos hceq] at hc
    cases hc
  · rw [if_neg hceq] at hc
    exact h c ch2 hc

theorem insertStep_inv {acc : World × List ChunkPos}
    {pair : ChunkPos × Chunk} {acc2 : World × List ChunkPos}
    (hpos : 0 < pair.2.non_air_count) (hinv : StoreInv acc.1.chunks)
    (h : insertStep acc pair = some acc2) : StoreInv acc2.1.chunks := by
  unfold insertStep ChunkStore.insert at h
  split at h
  · cases h
  · cases h
    exact StoreInv.set hinv hpos

theorem foldInsertStep_inv :
    ∀ (l : List (ChunkPos × Chunk)) (acc res : World × List ChunkPos),
      (∀ pair ∈ l, 0 < pair.2.non_air_count) → StoreInv acc.1.chunks →
      l.foldlM insertStep acc = some res → StoreInv res.1.chunks := by
  intro l
  induction l with
  | nil =>
    intro acc res _ hinv h
    cases h
    exact hinv
  | cons pair rest ih =>
    intro acc res hall hinv h
    rw [List.foldlM_cons] at h
    cases hstep : insertStep acc pair with
    | none => rw [hstep] at h; cases h
    | some acc2 =>
      rw [hstep] at h
      simp at h
      exact ih acc2 res (fun q hq => hall q (List.mem_cons_of_mem _ hq))
        (insertStep_inv (hall pair (List.mem_cons_self _ _)) hinv hstep) h

theorem parInsertMany_inv (tbl : BlockTable) {w : World} {pts : List ChunkPos}
    {w2 : World} {res : List ChunkPos} (hinv : StoreInv w.chunks)
    (h : w.parInsertMany tbl pts = some (w2, res)) : StoreInv w2.chunks := by
  unfold World.parInsertMany at h
  refine foldInsertStep_inv _ (w, []) (w2, res) ?_ hinv h
  intro pair hmem
  simp only [List.mem_filterMap, Option.map_eq_some'] at hmem
  obtain ⟨coords, hc, ch, hg, hpair⟩ := hmem
  cases hpair
  exact (generate_pos tbl hg).1

theorem foldApplyUnchecked_pos (tbl : BlockTable) :
    ∀ (acts : List (LPos × BlockAction)) (c : Chunk),
      (∀ pa ∈ acts, Block.Air.isActionValid pa.2 = true) →
      (0 < c.non_air_count ∨ acts ≠ []) →
      0 < (acts.foldl (fun ch pa => ch.applyUnchecked tbl pa.1 pa.2)
        c).non_air_count := by
  intro acts
  induction acts with
  | nil =>
    intro c _ hd
    rcases hd with hd | hd
    · simpa using hd
    · exact absurd rfl hd
  | cons pa rest ih =>
    intro c hall _
    rw [List.foldl_cons]
    refine ih _ (fun q hq => hall q (List.mem_cons_of_mem _ hq)) (Or.inl ?_)
    have hv := hall pa (List.mem_cons_self _ _)
    cases ha : pa.2 with
    | Destroy => rw [ha] at hv; exact absurd hv (by simp [Block.isActionValid])
    | Place b =>
      have hb : b ≠ .Air := by
        rw [ha] at hv
        unfold Block.isActionValid at hv
        simpa using hv
      unfold Chunk.applyUnchecked Chunk.adjustCounts Block.applyUnchecked
      simp [hb]

theorem mergeEntry_inv (tbl : BlockTable)
    (st : ChunkStore × List (WPos × BlockAction) × List ChunkPos × List ChunkPos)
    (entry : ChunkPos × List (LPos × BlockAction)) (h : StoreInv st.1) :
    StoreInv (mergeEntry tbl st entry).1 := by
  unfold mergeEntry
  dsimp only
  cases hc : st.1 entry.1 with
  | some chunk =>
    dsimp only
    by_cases hemp : (chunk.applyAll tbl entry.2).1.isEmpty = true
    · rw [if_pos hemp]
      exact StoreInv.remove h
    · rw [if_neg hemp]
      refine StoreInv.set h ?_
      have hcount : (chunk.applyAll tbl entry.2).1.non_air_count ≠ 0 := by
        simpa [Chunk.isEmpty] using hemp
      omega
  | none =>
    dsimp only
    by_cases hemp :
        (entry.2.filter fun pa => Block.Air.isActionValid pa.2).isEmpty = true
    · rw [if_pos hemp]
      exact h
    · rw [if_neg hemp]
      refine StoreInv.set h ?_
      unfold Chunk.applyAllUnchecked
      refine foldApplyUnchecked_pos tbl _ _ (fun pa hpa => ?_) (Or.inr ?_)
      · exact (List.mem_filter.1 hpa).2
      · simpa [List.isEmpty_iff] using hemp

theorem merge_inv (tbl : BlockTable)
    (la : ChunkStore → WPos → BlockAction → List WPos) (br : Branch)
    {w : World} (hinv : StoreInv w.chunks) :
    StoreInv ((Branch.merge tbl la br w).1).chunks := by
  unfold Branch.merge
  dsimp only
  have hfold : ∀ (entries : Branch)
      (st : ChunkStore × List (WPos × BlockAction) × List ChunkPos × List ChunkPos),
      StoreInv st.1 → StoreInv (entries.foldl (mergeEntry tbl) st).1 := by
    intro entries
    induction entries with
    | nil => intro st h; exact h
    | cons e rest ih =>
      intro st h
      rw [List.foldl_cons]
      exact ih _ (mergeEntry_inv tbl st e h)
  exact hfold br (w.chunks, [], [], []) hinv

/-- C1: in every world state reachable by generation insertions and edit
merges, every chunk present in the store has a strictly positive non-air
counter (the no-empty-chunk invariant); and `World::generate` never yields
an all-air chunk (its result always has a positive counter and is not
empty).  `Branch::merge` maintains the invariant precisely because it
removes a chunk the moment its actions empty it. -/
theorem c1_no_empty_chunks (tbl : BlockTable) :
    (∀ w, Reachable tbl w → ∀ c ch, w.chunks c = some ch →
      0 < ch.non_air_count) ∧
    (∀ (w : World) (coords : ChunkPos) (ch : Chunk),
      w.generate tbl coords = some ch →
        0 < ch.non_air_count ∧ ch.isEmpty = false) := by
  constructor
  · intro w hr
    induction hr with
    | init gen =>
      intro c ch h
      exact absurd h (by simp [ChunkStore.empty])
    | insertMany hr hstep ih => exact parInsertMany_inv tbl ih hstep
    | mergeStep hr hstep ih =>
      rename_i w0 br la w2 chg
      have hm := merge_inv tbl la br ih
      rw [hstep] at hm
      exact hm
  · intro w coords ch h
    exact generate_pos tbl h

/-- Witness for C1: the world obtained by merging a one-action branch into
a fresh world stores a chunk at the origin, and the invariant theorem
yields its positive counter. -/
theorem c1_no_empty_chunks_witness :
    (Branch.merge tbl0 la0 br1 worldAir).1.chunks ⟨0, 0, 0⟩ = some chW ∧
    0 < chW.non_air_count :=
  ⟨rfl,
    (c1_no_empty_chunks tbl0).1 (Branch.merge tbl0 la0 br1 worldAir).1
      (@Reachable.mergeStep tbl0 worldAir br1 la0
        (Branch.merge tbl0 la0 br1 worldAir).1
        (Branch.merge tbl0 la0 br1 worldAir).2
        (Reachable.init (fun _ _ => .Air)) rfl)
      ⟨0, 0, 0⟩ chW rfl⟩

theorem mem_axisPoints {c : Int} {r : Nat} {v : Int} :
    v ∈ WorldArea.axisPoints c r ↔ c - r ≤ v ∧ v ≤ c + r := by
  unfold WorldArea.axisPoints
  simp only [List.mem_map, List.mem_range]
  constructor
  · rintro ⟨i, hi, rfl⟩
    omega
  · intro hv
    exact ⟨(v - (c - r)).toNat, by omega, by omega⟩

theorem axisPoints_nodup (c : Int) (r : Nat) :
    (WorldArea.axisPoints c r).Nodup := by
  unfold WorldArea.axisPoints
  refine (List.nodup_range _).map ?_
  intro a b hab
  dsimp only at hab
  omega

theorem WorldArea.mem_points {a : WorldArea} {p : ChunkPos} :
    p ∈ a.points ↔ a.contains p = true := by
  unfold WorldArea.points WorldArea.contains
  simp only [List.mem_flatMap, List.mem_map, mem_axisPoints,
    Bool.and_eq_true, decide_eq_true_eq]
  constructor
  · rintro ⟨x, hx, y, hy, z, hz, rfl⟩
    dsimp only
    omega
  · intro hcont
    exact ⟨p.x, by omega, p.y, by omega, p.z, by omega, rfl⟩

theorem WorldArea.points_nodup (a : WorldArea) : a.points.Nodup := by
  have hz : ∀ x y : Int,
      ((WorldArea.axisPoints a.center.z a.radius).map
        fun z => (⟨x, y, z⟩ : ChunkPos)).Nodup := by
    intro x y
    refine (axisPoints_nodup _ _).map ?_
    intro v1 v2 h
    simpa using h
  have hy : ∀ x : Int,
      ((WorldArea.axisPoints a.center.y a.radius).flatMap fun y =>
        (WorldArea.axisPoints a.center.z a.radius).map
          fun z => (⟨x, y, z⟩ : ChunkPos)).Nodup := by
    intro x
    refine List.nodup_flatMap.2 ⟨fun y _ => hz x y, ?_⟩
    refine List.Pairwise.imp ?_ (axisPoints_nodup _ _)
    intro y1 y2 hne q hq1 hq2
    simp only [List.mem_map] at hq1 hq2
    obtain ⟨z1, _, rfl⟩ := hq1
    obtain ⟨z2, _, h2⟩ := hq2
    simp only [V3.mk.injEq] at h2
    exact hne h2.2.1.symm
  unfold WorldArea.points
  refine List.nodup_flatMap.2 ⟨fun x _ => hy x, ?_⟩
  refine List.Pairwise.imp ?_ (axisPoints_nodup _ _)
  intro x1 x2 hne q hq1 hq2
  simp only [List.mem_flatMap, List.mem_map] at hq1 hq2
  obtain ⟨y1, _, z1, _, rfl⟩ := hq1
  obtain ⟨y2, _, z2, _, h2⟩ := hq2
  simp only [V3.mk.injEq] at h2
  exact hne h2.1.symm

theorem WorldArea.contains_mono {prev curr : WorldArea}
    (hc : prev.center = curr.center) (hr : curr.radius ≤ prev.radius)
    {p : ChunkPos} (h : curr.contains p = true) : prev.contains p = true := by
  unfold WorldArea.contains at h ⊢
  rw [hc]
  simp only [Bool.and_eq_true, decide_eq_true_eq] at h ⊢
  omega

theorem exclusivePointsOf_shrink {prev curr : WorldArea}
    (hc : prev.center = curr.center) (hr : curr.radius < prev.radius) :
    curr.exclusivePointsOf prev = [] := by
  unfold WorldArea.exclusivePointsOf
  rw [List.filter_eq_nil_iff]
  intro p hp
  have hcur : curr.contains p = true := WorldArea.mem_points.1 hp
  have hprev := WorldArea.contains_mono hc (le_of_lt hr) hcur
  simp [hprev]

theorem count_map_unload (l : List ChunkPos) (c : ChunkPos) :
    (l.map SEvent.ChunkUnloaded).count (SEvent.ChunkUnloaded c) = l.count c := by
  induction l with
  | nil => rfl
  | cons a rest ih => simp [List.count_cons, ih]

theorem handleAreaChanged_shrink (tbl : BlockTable) (w : World)
    {prev curr : WorldArea} (lightUp : List ChunkPos → List WPos)
    (hoverChanged : Bool) (hc : prev.center = curr.center)
    (hr : curr.radius < prev.radius) :
    w.handleAreaChanged tbl prev curr lightUp hoverChanged = some (w,
      (if hoverChanged then [SEvent.BlockHovered] else [])
        ++ (w.exclusivePoints curr prev).map SEvent.ChunkUnloaded
        ++ (w.exclusivePoints prev curr).map (SEvent.ChunkLoaded · false)
        ++ ((w.updates (w.exclusivePoints prev curr)
              (w.exclusivePoints curr prev) (lightUp []) []).filter
            curr.contains).map (SEvent.ChunkUpdated · false)) := by
  unfold World.handleAreaChanged
  rw [exclusivePointsOf_shrink hc hr]
  rfl

/-- Counterexample to C6 as stated: with an empty chunk store, shrinking
the viewer area from radius 1 to radius 0 emits no event at all — in
particular not the claimed one `ChunkUnloaded` for (1,1,1), which lies
inside the previous area and outside the current one; the handler only
unloads coordinates actually present in the store. -/
theorem c6_counterexample_unload_requires_store :
    prevA.contains ⟨1, 1, 1⟩ = true ∧
    currA.contains ⟨1, 1, 1⟩ = false ∧
    currA.radius < prevA.radius ∧
    prevA.center = currA.center ∧
    World.areaChangedEvents tbl0 worldAir prevA currA (fun _ => []) false = [] := by
  refine ⟨by decide, by decide, by decide, rfl, by decide⟩

/-- C6 (amended): when the current area is the previous area with a
strictly smaller radius, handling the area-changed event leaves the world
unchanged and emits exactly one `ChunkUnloaded` event for every chunk
coordinate that is inside the previous area, outside the current one,
*and present in the chunk store*; and it emits no `ChunkLoaded` or
`ChunkUpdated` event for any coordinate inside neither area.  The lighting
engine's result and the hover recomputation are universally quantified
oracles. -/
theorem c6_area_shrink_amended (tbl : BlockTable) (w : World)
    (prev curr : WorldArea) (lightUp : List ChunkPos → List WPos)
    (hoverChanged : Bool) (hc : prev.center = curr.center)
    (hr : curr.radius < prev.radius) :
    w.handleAreaChanged tbl prev curr lightUp hoverChanged
      = some (w, w.areaChangedEvents tbl prev curr lightUp hoverChanged) ∧
    (∀ c, prev.contains c = true → curr.contains c = false →
      (w.chunks c).isSome = true →
      (w.areaChangedEvents tbl prev curr lightUp hoverChanged).count
        (SEvent.ChunkUnloaded c) = 1) ∧
    (∀ c b, prev.contains c = false → curr.contains c = false →
      SEvent.ChunkLoaded c b ∉
        w.areaChangedEvents tbl prev curr lightUp hoverChanged ∧
      SEvent.ChunkUpdated c b ∉
        w.areaChangedEvents tbl prev curr lightUp hoverChanged) := by
  have hE := handleAreaChanged_shrink tbl w lightUp hoverChanged hc hr
  have hEv : w.areaChangedEvents tbl prev curr lightUp hoverChanged
      = (if hoverChanged then [SEvent.BlockHovered] else [])
        ++ (w.exclusivePoints curr prev).map SEvent.ChunkUnloaded
        ++ (w.exclusivePoints prev curr).map (SEvent.ChunkLoaded · false)
        ++ ((w.updates (w.exclusivePoints prev curr)
              (w.exclusivePoints curr prev) (lightUp []) []).filter
            curr.contains).map (SEvent.ChunkUpdated · false) := by
    unfold World.areaChangedEvents
    rw [hE]
    rfl
  refine ⟨by rw [hE, hEv], fun c hp hcur hst => ?_, fun c b hp hcur => ?_⟩
  · rw [hEv]
    rw [List.count_append, List.count_append, List.count_append]
    have hhov : ((if hoverChanged then [SEvent.BlockHovered] else [])
        : List SEvent).count (SEvent.ChunkUnloaded c) = 0 := by
      cases hoverChanged <;> simp
    have hload : ((w.exclusivePoints prev curr).map
        (SEvent.ChunkLoaded · false)).count (SEvent.ChunkUnloaded c) = 0 := by
      rw [List.count_eq_zero]
      simp
    have hupd : (((w.updates (w.exclusivePoints prev curr)
        (w.exclusivePoints curr prev) (lightUp []) []).filter
          curr.contains).map (SEvent.ChunkUpdated · false)).count
        (SEvent.ChunkUnloaded c) = 0 := by
      rw [List.count_eq_zero]
      simp
    have hunl : ((w.exclusivePoints curr prev).map
        SEvent.ChunkUnloaded).count (SEvent.ChunkUnloaded c) = 1 := by
      rw [count_map_unload]
      unfold World.exclusivePoints
      refine List.count_eq_one_of_mem ((prev.points_nodup).filter _) ?_
      rw [List.mem_filter]
      refine ⟨WorldArea.mem_points.2 hp, ?_⟩
      simp [hp, hcur, hst, ChunkStore.contains]
    rw [hhov, hload, hupd, hunl]
  · constructor
    · intro hmem
      rw [hEv] at hmem
      rcases List.mem_append.1 hmem with h3 | hupd2
      · rcases List.mem_append.1 h3 with h2 | hload2
        · rcases List.mem_append.1 h2 with hhov2 | hunl2
          · cases hoverChanged <;> simp_all
          · simp at hunl2
        · rw [List.mem_map] at hload2
          obtain ⟨a, ha, heq⟩ := hload2
          injection heq with h1 h2
          subst h1
          unfold World.exclusivePoints at ha
          rw [List.mem_filter] at ha
          exact absurd ha.2 (by simp [hcur])
      · rw [List.mem_map] at hupd2
        obtain ⟨a, ha, heq⟩ := hupd2
        cases heq
    · intro hmem
      rw [hEv] at hmem
      rcases List.mem_append.1 hmem with h3 | hupd2
      · rcases List.mem_append.1 h3 with h2 | hload2
        · rcases List.mem_append.1 h2 with hhov2 | hunl2
          · cases hoverChanged <;> simp_all
          · simp at hunl2
        · rw [List.mem_map] at hload2
          obtain ⟨a, ha, heq⟩ := hload2
          cases heq
      · rw [List.mem_map] at hupd2
        obtain ⟨a, ha, heq⟩ := hupd2
        injection heq with h1 h2
        subst h1
        rw [List.mem_filter] at ha
        exact absurd ha.2 (by simp [hcur])

/-- Witness for the amended C6 on a world storing one chunk at (1,1,1). -/
theorem c6_area_shrink_amended_witness :
    prevA.center = currA.center ∧ currA.radius < prevA.radius ∧
    prevA.contains ⟨1, 1, 1⟩ = true ∧ currA.contains ⟨1, 1, 1⟩ = false ∧
    (worldCorner.chunks ⟨1, 1, 1⟩).isSome = true ∧
    (worldCorner.areaChangedEvents tbl0 prevA currA (fun _ => []) false).count
      (SEvent.ChunkUnloaded ⟨1, 1, 1⟩) = 1 :=
  ⟨rfl, by decide, by decide, by decide, rfl,
    (c6_area_shrink_amended tbl0 worldCorner prevA currA (fun _ => []) false
      rfl (by decide)).2.1 ⟨1, 1, 1⟩ (by decide) (by decide) rfl⟩

end Rustcraft
